import Mathlib

/-!
Shallow embedding of the MaiRestaurantData inventory pipeline.

The source program loads three spreadsheet tables (sales, ingredient map,
shipments), normalizes their columns, expands sales into per-ingredient
usage, aggregates per (month, ingredient), left-joins shipment supply by
ingredient, computes a trailing moving-average forecast and a reorder flag,
and renders/exports the result.

Modelling conventions:
- A spreadsheet cell is modelled by the observations the program makes of
  it through the pandas library: the result of date-parsing it
  (`pd.to_datetime(cell, errors="coerce")`, field `asDate`), the result of
  date-parsing the string `str(cell) ++ " 1, 2025"` (field `asDateRetry`),
  the result of numeric coercion (`pd.to_numeric(cell, errors="coerce")`,
  field `asNum`), and its string form (`str(cell)`, field `asStr`).
  A missing (NaN) cell has `asDate = none`, `asNum = none`, `asStr = "nan"`.
- Floating-point numbers are modelled as rationals; the float NaN that a
  left join introduces for unmatched rows is modelled by `Option`
  (`none` = NaN).  A comparison against `none` is false, matching IEEE
  comparisons against NaN.
- A dataframe is a list of column labels plus rows of cells; selecting a
  label picks the first matching column (tables with duplicate labels are
  outside the model, as pandas returns a sub-dataframe for them).
- `st.error`/`st.stop` (the `fail` helper) aborts the run; this is
  modelled by `Except`.  A `SchemaError` message is modelled structurally
  by the data interpolated into it: the list of missing canonical fields
  and, when the message prints them, the list of columns actually found.
- pandas `sort_values` uses an unstable sort; ties are only possible here
  when the shipment table repeats an ingredient, a situation the program
  leaves unspecified.  The model uses a stable insertion sort, one
  admissible refinement.
- pandas `groupby` sorts groups by key and drops null keys.
-/

/-- ASCII lowercase of a character, modelling Python `.lower()` on the
ASCII labels and values this program handles. -/
def lowerChar (c : Char) : Char :=
  if 65 ≤ c.toNat ∧ c.toNat ≤ 90 then Char.ofNat (c.toNat + 32) else c

/-- Python `str.lower()`. -/
def sLower (s : String) : String := ⟨s.data.map lowerChar⟩

/-- Whitespace characters stripped by Python `str.strip()`. -/
def wsChar (c : Char) : Bool := c = ' ' || c = '\t' || c = '\n' || c = '\r'

/-- Python `str.strip()`. -/
def sTrim (s : String) : String :=
  ⟨((s.data.dropWhile wsChar).reverse.dropWhile wsChar).reverse⟩

/-- Python `str.replace(ch, "")`: drop every occurrence of a character
(the two patterns the program replaces, "$" and ",", are single
characters). -/
def removeChar (ch : Char) (s : String) : String :=
  ⟨s.data.filter (fun c => c ≠ ch)⟩

/-- Python `str.startswith`. -/
def sStarts (p s : String) : Bool := p.data.isPrefixOf s.data

/-- Code-point lexicographic strict order on character lists, the order
Python and pandas use to compare and sort strings. -/
def strLTL : List Char → List Char → Bool
  | _, [] => false
  | [], _ :: _ => true
  | a :: as, b :: bs => if a < b then true else if b < a then false else strLTL as bs

def strLT (a b : String) : Prop := strLTL a.data b.data = true

def strLE (a b : String) : Prop := strLTL b.data a.data = false

instance strLT.instDecidableRel : DecidableRel strLT :=
  fun _ _ => inferInstanceAs (Decidable (_ = true))

instance strLE.instDecidableRel : DecidableRel strLE :=
  fun _ _ => inferInstanceAs (Decidable (_ = false))

/-- A calendar date as produced by `pd.to_datetime`: year, month, day. -/
structure Date where
  y : Int
  m : Nat
  d : Nat
deriving DecidableEq

/-- Chronological key of a date: lexicographic on (year, month, day). -/
def dateKey (dt : Date) : Int ×ₗ (Nat ×ₗ Nat) := toLex (dt.y, toLex (dt.m, dt.d))

theorem dateKey_injective : Function.Injective dateKey := by
  intro a b h
  cases a
  cases b
  simp only [dateKey, toLex_inj, Prod.mk.injEq] at h
  simp [h.1, h.2.1, h.2.2]

instance : LinearOrder Date := LinearOrder.lift' dateKey dateKey_injective

/-- A raw spreadsheet cell, modelled by the observations the program makes
of it through pandas (see the module comment). -/
structure Cell where
  asDate : Option Date
  asDateRetry : Option Date
  asNum : Option ℚ
  asStr : String
deriving DecidableEq

/-- The cell a missing / NaN entry presents to the program. -/
def Cell.nullCell : Cell := ⟨none, none, none, "nan"⟩

/-- A raw table: column labels plus rows of cells (positionally aligned). -/
structure RawTable where
  cols : List String
  rows : List (List Cell)
deriving DecidableEq

/-- Select the column with the given label (first match), as a cell list. -/
def getCol (t : RawTable) (c : String) : List Cell :=
  match t.cols.findIdx? (fun x => x == c) with
  | some i => t.rows.map (fun r => r.getD i Cell.nullCell)
  | none => []

/-- Errors raised while cleaning a table.  `schemaError missing found`
models a `fail(...)` message naming the `missing` canonical fields and,
when `found = some cols`, also printing the columns actually present.
`attributeError` models the Python `AttributeError` raised when `.astype`
is called on the scalar default that `df.get` returns for an absent
column. -/
inductive CleanError
  | schemaError (missing : List String) (found : Option (List String))
  | attributeError (msg : String)
deriving DecidableEq

/-- Canonical sales record after `clean_sales`. -/
structure SalesRow where
  month : Option Date
  item : String
  count : ℚ
  amount : ℚ
deriving DecidableEq

/-- Source `normalize_month`: parse the column as dates; if every value
fails to parse, reparse each value with " 1, 2025" appended; truncate the
result to the first of its month (`to_period("M").to_timestamp()`). -/
def truncMonth (dt : Date) : Date := ⟨dt.y, dt.m, 1⟩

def normalize_month (col : List Cell) : List (Option Date) :=
  let m := col.map (fun c => c.asDate)
  let m := if m.all (fun o => o.isNone) then col.map (fun c => c.asDateRetry) else m
  m.map (Option.map truncMonth)

/-- Column renaming done by `clean_sales`: strip the label, then map the
case-insensitive aliases onto canonical names. -/
def salesCanon (c : String) : String :=
  let c := sTrim c
  if sLower c = "item name" then "Item Name"
  else if sLower c = "item" then "Item Name"
  else if sLower c = "qty" then "Count"
  else if sLower c = "quantity" then "Count"
  else c

/-- Amount cleaning: `astype(str)`, strip "$" and ",", numeric-coerce,
default 0.  `parseRat` models `pd.to_numeric` on a plain decimal string. -/
def parseDigits (cs : List Char) : Option Nat :=
  if cs ≠ [] ∧ cs.all Char.isDigit then
    some (cs.foldl (fun n c => n * 10 + (c.toNat - 48)) 0)
  else none

def parseRatAbs (cs : List Char) : Option ℚ :=
  match cs.splitOn '.' with
  | [w] => (parseDigits w).map (fun n => (n : ℚ))
  | [w, f] =>
    match parseDigits w, parseDigits f with
    | some n, some fr => some ((n : ℚ) + (fr : ℚ) / ((10 : ℚ) ^ f.length))
    | _, _ => none
  | _ => none

def parseRat (s : String) : Option ℚ :=
  match (sTrim s).data with
  | '-' :: rest => (parseRatAbs rest).map (fun q => -q)
  | cs => parseRatAbs cs

def cleanAmount (c : Cell) : ℚ :=
  (parseRat (removeChar ',' (removeChar '$' c.asStr))).getD 0

/-- Zip the four cleaned sales columns back into records. -/
def mkSalesRows : List (Option Date) → List String → List ℚ → List ℚ → List SalesRow
  | mo :: mos, it :: its, c :: cs, a :: amts =>
    ⟨mo, it, c, a⟩ :: mkSalesRows mos its cs amts
  | _, _, _, _ => []

/-- The sales table after the trim/alias rename step. -/
def salesCanonTable (t : RawTable) : RawTable := ⟨t.cols.map salesCanon, t.rows⟩

/-- Source `clean_sales` applied to the renamed table.  The checks and
transformations happen in source order: Month check, month normalization,
Amount processing (which raises `AttributeError` when the column is absent,
since `df.get("Amount", 0)` returns the scalar `0` and `.astype` is then
called on an `int`), Count check and coercion, Item Name check. -/
def cleanSalesCanon (t : RawTable) : Except CleanError (List SalesRow) :=
  if "Month" ∈ t.cols then
    let months := normalize_month (getCol t "Month")
    if "Amount" ∈ t.cols then
      let amounts := (getCol t "Amount").map cleanAmount
      if "Count" ∈ t.cols then
        let counts := (getCol t "Count").map (fun c => c.asNum.getD 0)
        if "Item Name" ∈ t.cols then
          let items := (getCol t "Item Name").map (fun c => c.asStr)
          Except.ok (mkSalesRows months items counts amounts)
        else Except.error (.schemaError ["Item Name"] none)
      else Except.error (.schemaError ["Count"] none)
    else Except.error (.attributeError "int object has no attribute astype")
  else Except.error (.schemaError ["Month"] none)

def clean_sales (t : RawTable) : Except CleanError (List SalesRow) :=
  cleanSalesCanon (salesCanonTable t)

/-- Canonical ingredient-mapping record after `clean_ingredient_map`. -/
structure IngrRow where
  item : String
  ingredient : String
  units : ℚ
deriving DecidableEq

/-- Substring test, modelling Python `needle in hay`. -/
def containsSub (needle hay : String) : Bool :=
  hay.data.tails.any (fun t => needle.data.isPrefixOf t)

/-- Model of the `low2orig` dict lookup: the trailing occurrence wins
because later dict insertions overwrite earlier ones. -/
def lookupLow (cols : List String) (key : String) : Option String :=
  (cols.filter (fun c => sLower c == key)).getLast?

/-- Source `pick`: try each candidate as a case-insensitive exact match;
failing that, if some candidate contains "units per item", return the
first column (in first-occurrence key order) whose lowercase form starts
with "units per item". -/
def pickCol (cols : List String) (cands : List String) : Option String :=
  match cands.findSome? (fun cand => lookupLow cols (sLower cand)) with
  | some c => some c
  | none =>
    if cands.any (fun c => containsSub "units per item" (sLower c)) then
      match ((cols.map sLower).eraseDups).find?
          (fun k => sStarts "units per item" k) with
      | some k => lookupLow cols k
      | none => none
    else none

/-- Maximum of a list of rationals (groups passed to it are nonempty; the
default for the empty list is irrelevant). -/
def maxQ : List ℚ → ℚ
  | [] => 0
  | q :: qs => qs.foldl max q

/-- Sorted distinct keys of a grouping, modelling pandas `groupby` key
order (`sort=True`). -/
def groupKeys {κ : Type} [DecidableEq κ] (le : κ → κ → Prop) [DecidableRel le]
    (ks : List κ) : List κ :=
  List.insertionSort le ks.dedup

/-- Lexicographic order on pairs from a strict order on the first
component and a non-strict one on the second; this is the multi-column
`sort_values` / `groupby` key order. -/
def lexLE {α β : Type} (ltA : α → α → Prop) (leB : β → β → Prop)
    (p q : α × β) : Prop :=
  ltA p.1 q.1 ∨ (p.1 = q.1 ∧ leB p.2 q.2)

instance lexLE.instDecidableRel {α β : Type} (ltA : α → α → Prop)
    (leB : β → β → Prop) [DecidableRel ltA] [DecidableEq α] [DecidableRel leB] :
    DecidableRel (lexLE ltA leB) :=
  fun _ _ => inferInstanceAs (Decidable (_ ∨ _))

/-- Key order for the (Item Name, Ingredient) groupby. -/
abbrev ingrKeyLE : String × String → String × String → Prop := lexLE strLT strLE

/-- The ingredient-map records before grouping: values trimmed, rows with
an empty Item Name or Ingredient dropped, units numeric-coerced with
default 0. -/
def ingrPre (items ingrs : List String) (us : List ℚ) : List IngrRow :=
  match items, ingrs, us with
  | it :: its, g :: gs, u :: us' => ⟨it, g, u⟩ :: ingrPre its gs us'
  | _, _, _ => []

def ingrPreOf (t : RawTable) : List IngrRow :=
  let cols := t.cols.map sTrim
  match pickCol cols ["Item Name", "Item name", "item"],
        pickCol cols ["Ingredient", "Ingrediant", "Ingredients"],
        pickCol cols ["Units per Item", "Units per item", "Units_per_Item", "Unit per item"] with
  | some ic, some gc, some uc =>
    let t2 : RawTable := ⟨cols, t.rows⟩
    (ingrPre ((getCol t2 ic).map (fun c => sTrim c.asStr))
             ((getCol t2 gc).map (fun c => sTrim c.asStr))
             ((getCol t2 uc).map (fun c => c.asNum.getD 0))).filter
      (fun r => r.item ≠ "" && r.ingredient ≠ "")
  | _, _, _ => []

/-- Collapse duplicate (Item Name, Ingredient) pairs to the maximum
Units per Item, modelling `groupby([...]).agg(max)`. -/
def ingrRowOf (rs : List IngrRow) (k : String × String) : IngrRow :=
  ⟨k.1, k.2,
   maxQ ((rs.filter (fun r => r.item == k.1 && r.ingredient == k.2)).map
     (fun r => r.units))⟩

def groupMaxUnits (rs : List IngrRow) : List IngrRow :=
  (groupKeys ingrKeyLE (rs.map (fun r => (r.item, r.ingredient)))).map (ingrRowOf rs)

/-- Source `clean_ingredient_map`: trim labels, resolve the three columns
via `pick`, fail listing the missing canonical names and the found columns
otherwise, then trim values, drop empties, coerce units, and collapse
duplicates by maximum. -/
def clean_ingredient_map (t : RawTable) : Except CleanError (List IngrRow) :=
  let cols := t.cols.map sTrim
  match pickCol cols ["Item Name", "Item name", "item"],
        pickCol cols ["Ingredient", "Ingrediant", "Ingredients"],
        pickCol cols ["Units per Item", "Units per item", "Units_per_Item", "Unit per item"] with
  | some _, some _, some _ => Except.ok (groupMaxUnits (ingrPreOf t))
  | itemCol, ingrCol, unitsCol =>
    Except.error (.schemaError
      ((if itemCol = none then ["Item Name"] else []) ++
       (if ingrCol = none then ["Ingredient"] else []) ++
       (if unitsCol = none then ["Units per Item"] else []))
      (some cols))

/-- Canonical shipment record after `clean_shipments`. -/
structure ShipRow where
  ingredient : String
  qtyPerShipment : ℚ
  numShipments : ℚ
  totalReceived : ℚ
  weeklySupply : ℚ
  unit : String
deriving DecidableEq

/-- Column renaming done by `clean_shipments`. -/
def shipCanon (c : String) : String :=
  let c := sTrim c
  if sLower c = "quantity per shipment" then "QtyPerShipment"
  else if sLower c = "unit of shipment" then "Unit"
  else if sLower c = "number of shipments" then "NumShipments"
  else if sLower c = "frequency" then "Frequency"
  else c

/-- Frequency factor: lowercase, strip, then weekly 1, biweekly 1/2,
monthly 1/4, anything else 1. -/
def freqFactor (s : String) : ℚ :=
  let f := sTrim (sLower s)
  if f = "weekly" then 1
  else if f = "biweekly" then 1/2
  else if f = "monthly" then 1/4
  else 1

/-- Zip the cleaned shipment columns into records; `TotalReceived` is
`QtyPerShipment * NumShipments` and `WeeklySupply` multiplies in the
frequency factor. -/
def mkShipRows : List String → List ℚ → List ℚ → List ℚ → List String → List ShipRow
  | g :: gs, q :: qs, n :: ns, f :: fs, u :: us =>
    ⟨g, q, n, q * n, q * n * f, u⟩ :: mkShipRows gs qs ns fs us
  | _, _, _, _, _ => []

/-- Source `clean_shipments` on the renamed table.  Required columns are
checked together; the Frequency lookup raises `AttributeError` when the
column is absent (`df.get("Frequency", "weekly")` returns the scalar
string and `.astype` is then called on a `str`); a missing Unit column
defaults to the empty string. -/
def shipCanonTable (t : RawTable) : RawTable := ⟨t.cols.map shipCanon, t.rows⟩

def cleanShipmentsCanon (t : RawTable) : Except CleanError (List ShipRow) :=
  let miss := ["Ingredient", "QtyPerShipment", "NumShipments"].filter
    (fun c => !(t.cols.contains c))
  if miss ≠ [] then Except.error (.schemaError miss (some t.cols))
  else
    let qtys := (getCol t "QtyPerShipment").map (fun c => c.asNum.getD 0)
    let nums := (getCol t "NumShipments").map (fun c => c.asNum.getD 0)
    if "Frequency" ∈ t.cols then
      let facs := (getCol t "Frequency").map (fun c => freqFactor c.asStr)
      let units := if "Unit" ∈ t.cols then (getCol t "Unit").map (fun c => c.asStr)
                   else t.rows.map (fun _ => "")
      let ingrs := (getCol t "Ingredient").map (fun c => c.asStr)
      Except.ok (mkShipRows ingrs qtys nums facs units)
    else Except.error (.attributeError "str object has no attribute astype")

def clean_shipments (t : RawTable) : Except CleanError (List ShipRow) :=
  cleanShipmentsCanon (shipCanonTable t)

/-- One usage row per (sales row, matching ingredient-map row); the
left-join rows without a match carry a null Ingredient and are dropped by
`dropna(subset=["Ingredient"])`, so the result is the inner join. -/
structure UsageRow where
  month : Option Date
  ingredient : String
  usage : ℚ
  count : ℚ
deriving DecidableEq

def usageRows (sales : List SalesRow) (ingr : List IngrRow) : List UsageRow :=
  sales.flatMap (fun s =>
    (ingr.filter (fun g => g.item == s.item)).map
      (fun g => ⟨s.month, g.ingredient, s.count * g.units, s.count⟩))

/-- Aggregated usage per (Month, Ingredient). -/
structure MIURow where
  month : Date
  ingredient : String
  totalUsed : ℚ
  orders : ℚ
deriving DecidableEq

/-- Key order for the (Month, Ingredient) groupby. -/
abbrev usageKeyLE : Date × String → Date × String → Prop :=
  lexLE (fun a b : Date => a < b) strLE

/-- Source `usage.groupby(["Month", "Ingredient"]).agg(sum, sum)`: rows
whose Month failed to parse (NaT) have a null group key and are dropped by
pandas; keys come out sorted. -/
def usageKeys (u : List UsageRow) : List (Date × String) :=
  u.filterMap (fun r => r.month.map (fun m => (m, r.ingredient)))

def miuOf (u : List UsageRow) (k : Date × String) : MIURow :=
  let grp := u.filter (fun r => r.month == some k.1 && r.ingredient == k.2)
  ⟨k.1, k.2, (grp.map (fun r => r.usage)).sum, (grp.map (fun r => r.count)).sum⟩

def usage_by_month_ing (u : List UsageRow) : List MIURow :=
  (groupKeys usageKeyLE (usageKeys u)).map (miuOf u)

/-- A combined-ledger row before the forecast step: the left join of the
usage aggregate with the shipment table on Ingredient.  Unmatched rows
carry NaN (`none`) supply fields. -/
structure CombRow where
  month : Date
  ingredient : String
  totalUsed : ℚ
  orders : ℚ
  totalReceived : Option ℚ
  weeklySupply : Option ℚ
  unit : Option String
deriving DecidableEq

def mergeShip (miu : List MIURow) (ship : List ShipRow) : List CombRow :=
  miu.flatMap (fun r =>
    match ship.filter (fun s => s.ingredient == r.ingredient) with
    | [] => [⟨r.month, r.ingredient, r.totalUsed, r.orders, none, none, none⟩]
    | ms => ms.map (fun s =>
        ⟨r.month, r.ingredient, r.totalUsed, r.orders,
         some s.totalReceived, some s.weeklySupply, some s.unit⟩))

/-- Source `combined.sort_values(["Ingredient", "Month"])`. -/
def combKey (r : CombRow) : String × Date := (r.ingredient, r.month)

abbrev combLE (a b : CombRow) : Prop :=
  lexLE strLT (fun a b : Date => a ≤ b) (combKey a) (combKey b)

def sortComb (l : List CombRow) : List CombRow := List.insertionSort combLE l

/-- A final combined-ledger row, with forecast, gap and reorder flag. -/
structure LedgerRow where
  month : Date
  ingredient : String
  totalUsed : ℚ
  orders : ℚ
  totalReceived : Option ℚ
  weeklySupply : Option ℚ
  unit : Option String
  forecastNextMonth : ℚ
  gap : Option ℚ
  reorderFlag : String
deriving DecidableEq

/-- Value of `rolling(3, min_periods=1).mean()` at the newest position of
`prior` (the sequence seen so far, oldest first). -/
def rollMean (prior : List ℚ) : ℚ :=
  let w := prior.reverse.take 3
  w.sum / (w.length : ℚ)

/-- The comparison `ForecastNextMonth > TotalReceived` under float
semantics: comparing against NaN (`none`) is false. -/
def gtReceived (f : ℚ) : Option ℚ → Bool
  | some r => decide (r < f)
  | none => false

/-- Attach forecast, `Gap_Received_vs_Used = TotalUsed - TotalReceived`
(NaN-propagating) and the reorder flag to a row. -/
def finishRow (r : CombRow) (fc : ℚ) : LedgerRow :=
  ⟨r.month, r.ingredient, r.totalUsed, r.orders, r.totalReceived,
   r.weeklySupply, r.unit, fc,
   r.totalReceived.map (fun q => r.totalUsed - q),
   if gtReceived fc r.totalReceived then "Reorder Soon" else "OK"⟩

/-- Source `groupby("Ingredient")["TotalUsed"].transform(rolling mean)`:
each row's forecast is the rolling mean over the previously seen rows of
its own ingredient (in list order) plus itself. -/
def addForecast (seen : List CombRow) : List CombRow → List LedgerRow
  | [] => []
  | r :: rest =>
    finishRow r (rollMean
        (((seen ++ [r]).filter (fun x => x.ingredient == r.ingredient)).map
          (fun x => x.totalUsed))) ::
      addForecast (seen ++ [r]) rest

/-- The combined ledger computed from the three cleaned tables
(source lines 155-172). -/
def combinedLedger (sales : List SalesRow) (ingr : List IngrRow)
    (ship : List ShipRow) : List LedgerRow :=
  addForecast [] (sortComb (mergeShip (usage_by_month_ing (usageRows sales ingr)) ship))

/-- The whole run: clean the three tables (halting on the first failure)
and compute the combined ledger. -/
def pipeline (sT iT shT : RawTable) : Except CleanError (List LedgerRow) := do
  let s ← clean_sales sT
  let i ← clean_ingredient_map iT
  let sh ← clean_shipments shT
  pure (combinedLedger s i sh)

/-- Columns of the on-screen report table (source line 216). -/
def report_columns : List String :=
  ["Month", "Ingredient", "TotalUsed", "TotalReceived",
   "ForecastNextMonth", "Unit", "ReorderFlag"]

/-- Columns of the full `combined` dataframe, in pandas order: the
aggregate columns, the merged supply columns, then the three assigned
columns.  `combined.to_csv(index=False)` writes exactly these. -/
def combined_columns : List String :=
  ["Month", "Ingredient", "TotalUsed", "Orders", "TotalReceived",
   "WeeklySupply", "Unit", "ForecastNextMonth", "Gap_Received_vs_Used",
   "ReorderFlag"]

/-- Sort order of the displayed report:
`sort_values(["ReorderFlag", "Ingredient", "Month"])`. -/
def reportKey (r : LedgerRow) : String × String × Date :=
  (r.reorderFlag, r.ingredient, r.month)

abbrev reportLE (a b : LedgerRow) : Prop :=
  lexLE strLT (lexLE strLT (fun a b : Date => a ≤ b)) (reportKey a) (reportKey b)

/-- The on-screen report: the seven `report_columns` of the ledger, rows
sorted by (ReorderFlag, Ingredient, Month). -/
def displayed_report (l : List LedgerRow) : List String × List LedgerRow :=
  (report_columns, List.insertionSort reportLE l)

/-- The CSV download: header row of all `combined_columns`, then one
record per ledger row in ledger order; `index=False`, so no index column. -/
def to_csv (l : List LedgerRow) : List String × List LedgerRow :=
  (combined_columns, l)

/-- Decidable equality of run results, used to state concrete runs. -/
def exceptDecEq {ε α : Type} [DecidableEq ε] [DecidableEq α] :
    DecidableEq (Except ε α)
  | .error e, .error f =>
    if h : e = f then .isTrue (by rw [h]) else .isFalse (fun hh => h (by cases hh; rfl))
  | .error _, .ok _ => .isFalse (fun hh => Except.noConfusion hh)
  | .ok _, .error _ => .isFalse (fun hh => Except.noConfusion hh)
  | .ok a, .ok b =>
    if h : a = b then .isTrue (by rw [h]) else .isFalse (fun hh => h (by cases hh; rfl))

instance {ε α : Type} [DecidableEq ε] [DecidableEq α] : DecidableEq (Except ε α) :=
  exceptDecEq

/-- Facts about the code-point string order: asymmetry, connectivity and
transitivity, used to show the pandas sorts are total orders. -/
theorem strLTL_asymm : ∀ a b, strLTL a b = true → strLTL b a = false := by
  intro a
  induction a with
  | nil => intro b h; cases b <;> simp_all [strLTL]
  | cons x xs ih =>
    intro b h
    cases b with
    | nil => simp [strLTL] at h
    | cons y ys =>
      by_cases h1 : x < y
      · have h2 : ¬ y < x := lt_asymm h1
        simp [strLTL, h1, h2]
      · by_cases h2 : y < x
        · simp [strLTL, h1, h2] at h
        · simp only [strLTL, if_neg h1, if_neg h2] at h
          simp [strLTL, if_neg h1, if_neg h2, ih ys h]

theorem strLTL_conn : ∀ a b, strLTL a b = false → strLTL b a = false → a = b := by
  intro a
  induction a with
  | nil =>
    intro b h1 _
    cases b with
    | nil => rfl
    | cons y ys => simp [strLTL] at h1
  | cons x xs ih =>
    intro b h1 h2
    cases b with
    | nil => simp [strLTL] at h2
    | cons y ys =>
      rcases lt_trichotomy x y with hxy | hxy | hxy
      · simp [strLTL, hxy] at h1
      · subst hxy
        simp only [strLTL, if_neg (lt_irrefl x)] at h1 h2
        rw [ih ys h1 h2]
      · simp [strLTL, hxy] at h2

theorem strLTL_trans : ∀ a b c, strLTL a b = true → strLTL b c = true →
    strLTL a c = true := by
  intro a
  induction a with
  | nil =>
    intro b c h1 h2
    cases b with
    | nil => simp [strLTL] at h1
    | cons y ys => cases c with
      | nil => simp [strLTL] at h2
      | cons z zs => simp [strLTL]
  | cons x xs ih =>
    intro b c h1 h2
    cases b with
    | nil => simp [strLTL] at h1
    | cons y ys =>
      cases c with
      | nil => simp [strLTL] at h2
      | cons z zs =>
        rcases lt_trichotomy x y with hxy | hxy | hxy
        · rcases lt_trichotomy y z with hyz | hyz | hyz
          · have hxz : x < z := lt_trans hxy hyz
            simp [strLTL, hxz]
          · have hxz : x < z := hyz ▸ hxy
            simp [strLTL, hxz]
          · simp [strLTL, lt_asymm hyz, hyz] at h2
        · subst hxy
          rcases lt_trichotomy x z with hxz | hxz | hxz
          · simp [strLTL, hxz]
          · subst hxz
            simp only [strLTL, if_neg (lt_irrefl x)] at h1 h2 ⊢
            exact ih ys zs h1 h2
          · simp [strLTL, lt_asymm hxz, hxz] at h2
        · simp [strLTL, lt_asymm hxy, hxy] at h1

theorem strLT_trans : ∀ a b c : String, strLT a b → strLT b c → strLT a c :=
  fun _ _ _ h1 h2 => strLTL_trans _ _ _ h1 h2

theorem strLT_conn : ∀ a b : String, ¬ strLT a b → ¬ strLT b a → a = b := by
  intro a b h1 h2
  have h1f : strLTL a.data b.data = false := by
    cases hv : strLTL a.data b.data
    · rfl
    · exact absurd hv h1
  have h2f : strLTL b.data a.data = false := by
    cases hv : strLTL b.data a.data
    · rfl
    · exact absurd hv h2
  cases a
  cases b
  exact congrArg String.mk (strLTL_conn _ _ h1f h2f)

theorem strLE_total : ∀ a b : String, strLE a b ∨ strLE b a := by
  intro a b
  by_cases h : strLTL b.data a.data = true
  · exact Or.inr (strLTL_asymm _ _ h)
  · cases hv : strLTL b.data a.data
    · exact Or.inl hv
    · exact absurd hv h

theorem strLE_trans : ∀ a b c : String, strLE a b → strLE b c → strLE a c := by
  intro a b c h1 h2
  unfold strLE at h1 h2 ⊢
  cases hab : strLTL a.data b.data with
  | false =>
    have he : a.data = b.data := strLTL_conn _ _ hab h1
    rw [← he] at h2
    exact h2
  | true =>
    cases hbc : strLTL b.data c.data with
    | false =>
      have he : b.data = c.data := strLTL_conn _ _ hbc h2
      rw [← he]
      exact h1
    | true => exact strLTL_asymm _ _ (strLTL_trans _ _ _ hab hbc)

/-- Totality of the lexicographic pair order, given connectivity of the
first component and totality of the second. -/
theorem lexLE_total {α β : Type} {ltA : α → α → Prop} {leB : β → β → Prop}
    (hconn : ∀ a b, ¬ ltA a b → ¬ ltA b a → a = b)
    (hBtot : ∀ x y, leB x y ∨ leB y x) :
    ∀ p q, lexLE ltA leB p q ∨ lexLE ltA leB q p := by
  intro p q
  by_cases h1 : ltA p.1 q.1
  · exact Or.inl (Or.inl h1)
  by_cases h2 : ltA q.1 p.1
  · exact Or.inr (Or.inl h2)
  have he := hconn _ _ h1 h2
  rcases hBtot p.2 q.2 with h | h
  · exact Or.inl (Or.inr ⟨he, h⟩)
  · exact Or.inr (Or.inr ⟨he.symm, h⟩)

/-- Transitivity of the lexicographic pair order. -/
theorem lexLE_trans {α β : Type} {ltA : α → α → Prop} {leB : β → β → Prop}
    (hAtr : ∀ a b c, ltA a b → ltA b c → ltA a c)
    (hBtr : ∀ x y z, leB x y → leB y z → leB x z) :
    ∀ p q r, lexLE ltA leB p q → lexLE ltA leB q r → lexLE ltA leB p r := by
  rintro p q r (h1 | ⟨e1, h1⟩) (h2 | ⟨e2, h2⟩)
  · exact Or.inl (hAtr _ _ _ h1 h2)
  · exact Or.inl (e2 ▸ h1)
  · exact Or.inl (e1 ▸ h2)
  · exact Or.inr ⟨e1.trans e2, hBtr _ _ _ h1 h2⟩

theorem dateLT_conn : ∀ a b : Date, ¬ a < b → ¬ b < a → a = b :=
  fun _ _ h1 h2 => le_antisymm (not_lt.mp h2) (not_lt.mp h1)

instance : IsTotal (String × String) ingrKeyLE :=
  ⟨lexLE_total strLT_conn strLE_total⟩

instance : IsTrans (String × String) ingrKeyLE :=
  ⟨fun _ _ _ => lexLE_trans strLT_trans strLE_trans _ _ _⟩

instance : IsTotal (Date × String) usageKeyLE :=
  ⟨lexLE_total dateLT_conn strLE_total⟩

instance : IsTrans (Date × String) usageKeyLE :=
  ⟨fun _ _ _ =>
    @lexLE_trans Date String (fun a b => a < b) strLE
      (fun _ _ _ h1 h2 => lt_trans h1 h2) strLE_trans _ _ _⟩

instance : IsTotal CombRow combLE :=
  ⟨fun a b => lexLE_total strLT_conn (fun x y => le_total x y) (combKey a) (combKey b)⟩

instance : IsTrans CombRow combLE :=
  ⟨fun _ _ _ =>
    @lexLE_trans String Date strLT (fun a b => a ≤ b)
      strLT_trans (fun _ _ _ h1 h2 => le_trans h1 h2) _ _ _⟩

instance : IsTotal LedgerRow reportLE :=
  ⟨fun a b =>
    lexLE_total strLT_conn
      (lexLE_total strLT_conn (fun x y => le_total x y))
      (reportKey a) (reportKey b)⟩

instance : IsTrans LedgerRow reportLE :=
  ⟨fun _ _ _ =>
    @lexLE_trans String (String × Date) strLT (lexLE strLT (fun a b => a ≤ b))
      strLT_trans
      (@lexLE_trans String Date strLT (fun a b => a ≤ b)
        strLT_trans (fun _ _ _ h1 h2 => le_trans h1 h2)) _ _ _⟩

/-- The keys returned by `groupKeys` are exactly the distinct input keys. -/
theorem mem_groupKeys {κ : Type} [DecidableEq κ] (le : κ → κ → Prop)
    [DecidableRel le] (ks : List κ) (k : κ) :
    k ∈ groupKeys le ks ↔ k ∈ ks := by
  unfold groupKeys
  rw [(List.perm_insertionSort le ks.dedup).mem_iff]
  exact List.mem_dedup

/-- `groupKeys` has no duplicate keys. -/
theorem nodup_groupKeys {κ : Type} [DecidableEq κ] (le : κ → κ → Prop)
    [DecidableRel le] (ks : List κ) : (groupKeys le ks).Nodup :=
  (List.perm_insertionSort le ks.dedup).symm.nodup ks.nodup_dedup

/-- `groupKeys` is sorted by the given key order. -/
theorem sorted_groupKeys {κ : Type} [DecidableEq κ] (le : κ → κ → Prop)
    [DecidableRel le] [IsTotal κ le] [IsTrans κ le] (ks : List κ) :
    (groupKeys le ks).Sorted le :=
  List.sorted_insertionSort le ks.dedup

/-- Forget the columns `addForecast` appends, recovering the pre-forecast
row. -/
def stripF (lr : LedgerRow) : CombRow :=
  ⟨lr.month, lr.ingredient, lr.totalUsed, lr.orders, lr.totalReceived,
   lr.weeklySupply, lr.unit⟩

theorem stripF_finishRow (r : CombRow) (fc : ℚ) : stripF (finishRow r fc) = r := rfl

/-- The forecast step only appends columns: stripping them recovers the
input rows in order. -/
theorem addForecast_map_stripF : ∀ (l seen : List CombRow),
    (addForecast seen l).map stripF = l := by
  intro l
  induction l with
  | nil => intro seen; rfl
  | cons r rest ih =>
    intro seen
    simp [addForecast, stripF_finishRow, ih]

/-- Every output row of `addForecast` is a `finishRow`. -/
theorem mem_addForecast {lr : LedgerRow} : ∀ {l seen : List CombRow},
    lr ∈ addForecast seen l → ∃ r fc, lr = finishRow r fc := by
  intro l
  induction l with
  | nil => intro seen h; simp [addForecast] at h
  | cons r rest ih =>
    intro seen h
    rcases (List.mem_cons).mp h with h | h
    · exact ⟨r, _, h⟩
    · exact ih h

/-- Rows of the sorted ledger are rows of the merge, and conversely. -/
theorem sortComb_perm (l : List CombRow) : (sortComb l).Perm l :=
  List.perm_insertionSort combLE l

/-- `annotateGroup prior rows` runs the forecast over a single ingredient
group whose previously seen usage values are `prior`. -/
def annotateGroup (prior : List ℚ) : List CombRow → List LedgerRow
  | [] => []
  | r :: rest =>
    finishRow r (rollMean (prior ++ [r.totalUsed])) ::
      annotateGroup (prior ++ [r.totalUsed]) rest

/-- Restricting `addForecast` to one ingredient is `annotateGroup` on that
ingredient's subsequence: the rolling window of a row only reads rows of
the same ingredient. -/
theorem addForecast_filter (g : String) : ∀ (l seen : List CombRow),
    (addForecast seen l).filter (fun lr => lr.ingredient == g) =
      annotateGroup ((seen.filter (fun x => x.ingredient == g)).map (fun x => x.totalUsed))
        (l.filter (fun x => x.ingredient == g)) := by
  intro l
  induction l with
  | nil => intro seen; rfl
  | cons r rest ih =>
    intro seen
    by_cases hr : r.ingredient = g
    · subst hr
      simp only [addForecast, List.filter_cons]
      have hhead : ((finishRow r (rollMean
          (((seen ++ [r]).filter (fun x => x.ingredient == r.ingredient)).map
            (fun x => x.totalUsed)))).ingredient == r.ingredient) = true := by
        simp [finishRow]
      rw [ih (seen ++ [r])]
      simp only [hhead, beq_self_eq_true, if_pos, List.filter_append, List.filter_cons,
        beq_self_eq_true, List.filter_nil, ite_true, List.map_append, List.map_cons,
        List.map_nil, annotateGroup]
      rw [if_pos (by simp [finishRow])]
    · have hbeq : (r.ingredient == g) = false := by simp [hr]
      have hhead : ((finishRow r (rollMean
          (((seen ++ [r]).filter (fun x => x.ingredient == r.ingredient)).map
            (fun x => x.totalUsed)))).ingredient == g) = false := by
        simp [finishRow, hr]
      simp only [addForecast, List.filter_cons, hhead, hbeq, if_neg, Bool.false_eq_true,
        ite_false]
      rw [ih (seen ++ [r]), List.filter_append]
      simp only [List.filter_cons, hbeq, Bool.false_eq_true, ite_false, List.filter_nil,
        List.append_nil]

theorem annotateGroup_map_used : ∀ (rows : List CombRow) (prior : List ℚ),
    (annotateGroup prior rows).map (fun lr => lr.totalUsed) =
      rows.map (fun r => r.totalUsed) := by
  intro rows
  induction rows with
  | nil => intro prior; rfl
  | cons r rest ih => intro prior; simp [annotateGroup, finishRow, ih]

theorem annotateGroup_map_month : ∀ (rows : List CombRow) (prior : List ℚ),
    (annotateGroup prior rows).map (fun lr => lr.month) =
      rows.map (fun r => r.month) := by
  intro rows
  induction rows with
  | nil => intro prior; rfl
  | cons r rest ih => intro prior; simp [annotateGroup, finishRow, ih]

theorem annotateGroup_length : ∀ (rows : List CombRow) (prior : List ℚ),
    (annotateGroup prior rows).length = rows.length := by
  intro rows
  induction rows with
  | nil => intro prior; rfl
  | cons r rest ih => intro prior; simp [annotateGroup, ih]

/-- Position `k` of an annotated group is its input row together with the
rolling mean of everything seen up to and including it. -/
theorem annotateGroup_getElem? : ∀ (rows : List CombRow) (prior : List ℚ) (k : Nat),
    (annotateGroup prior rows)[k]? =
      rows[k]?.map (fun r =>
        finishRow r (rollMean (prior ++ (rows.map (fun x => x.totalUsed)).take (k+1)))) := by
  intro rows
  induction rows with
  | nil => intro prior k; simp [annotateGroup]
  | cons r rest ih =>
    intro prior k
    cases k with
    | zero => simp [annotateGroup]
    | succ k =>
      simp only [annotateGroup, List.getElem?_cons_succ, ih (prior ++ [r.totalUsed]) k,
        List.map_cons, List.take_succ_cons, List.append_assoc, List.cons_append,
        List.nil_append]

/-- `rolling(3, min_periods=1).mean()` at position `k` is the mean of the
window from `max(k-2, 0)` through `k`. -/
theorem rollMean_take (u : List ℚ) (k : Nat) (hk : k < u.length) :
    rollMean (u.take (k+1)) =
      ((u.take (k+1)).drop (k-2)).sum / ((((u.take (k+1)).drop (k-2)).length : ℚ)) := by
  have hlen : (u.take (k+1)).length = k + 1 := by
    rw [List.length_take]
    omega
  have h := List.rtake_eq_reverse_take_reverse (u.take (k+1)) 3
  unfold List.rtake at h
  rw [hlen] at h
  have hsub : k + 1 - 3 = k - 2 := by omega
  rw [hsub] at h
  have h3 : (u.take (k+1)).reverse.take 3 = ((u.take (k+1)).drop (k-2)).reverse := by
    rw [h, List.reverse_reverse]
  unfold rollMean
  rw [h3]
  simp only [List.sum_reverse, List.length_reverse]

/-- With no duplicate ingredients, filtering by an ingredient finds at
most the `find?` match. -/
theorem filter_eq_find?_toList {α : Type} (f : α → String) :
    ∀ (l : List α), (l.map f).Nodup → ∀ g : String,
      l.filter (fun s => f s == g) = (l.find? (fun s => f s == g)).toList := by
  intro l
  induction l with
  | nil => intro _ g; rfl
  | cons s tl ih =>
    intro hnd g
    rw [List.map_cons, List.nodup_cons] at hnd
    by_cases hs : f s = g
    · have hbeq : (f s == g) = true := by simp [hs]
      have htl : tl.filter (fun x => f x == g) = [] := by
        rw [List.filter_eq_nil_iff]
        intro x hx
        simp only [beq_iff_eq]
        intro hxg
        exact hnd.1 (hxg.trans hs.symm ▸ List.mem_map_of_mem f hx)
      rw [List.filter_cons]
      simp [List.find?_cons, hbeq, htl]
    · have hbeq : (f s == g) = false := by simp [hs]
      rw [List.filter_cons]
      simp only [List.find?_cons, hbeq, Bool.false_eq_true, ite_false, cond_false]
      exact ih hnd.2 g

/-- The combined row built for a usage-aggregate row from its (unique or
absent) shipment match. -/
def combOf (r : MIURow) : Option ShipRow → CombRow
  | none => ⟨r.month, r.ingredient, r.totalUsed, r.orders, none, none, none⟩
  | some s => ⟨r.month, r.ingredient, r.totalUsed, r.orders,
      some s.totalReceived, some s.weeklySupply, some s.unit⟩

/-- When the shipment table has no duplicate ingredients the left merge is
one-to-at-most-one: each usage row yields exactly one combined row, built
from its `find?` lookup. -/
theorem mergeShip_eq_map (miu : List MIURow) (ship : List ShipRow)
    (hship : (ship.map (fun s => s.ingredient)).Nodup) :
    mergeShip miu ship =
      miu.map (fun r => combOf r (ship.find? (fun s => s.ingredient == r.ingredient))) := by
  induction miu with
  | nil => rfl
  | cons r rest ih =>
    show (match ship.filter (fun s => s.ingredient == r.ingredient) with
      | [] => [⟨r.month, r.ingredient, r.totalUsed, r.orders, none, none, none⟩]
      | ms => ms.map (fun s =>
          ⟨r.month, r.ingredient, r.totalUsed, r.orders,
           some s.totalReceived, some s.weeklySupply, some s.unit⟩)) ++ mergeShip rest ship = _
    rw [filter_eq_find?_toList (fun s => s.ingredient) ship hship r.ingredient, ih]
    cases hf : ship.find? (fun s => s.ingredient == r.ingredient) with
    | none => simp [combOf, hf]
    | some s => simp [combOf, hf]

theorem le_foldl_max_init : ∀ (l : List ℚ) (a : ℚ), a ≤ l.foldl max a := by
  intro l
  induction l with
  | nil => intro a; exact le_refl a
  | cons b bs ih => intro a; exact le_trans (le_max_left a b) (ih (max a b))

theorem le_foldl_max_mem : ∀ (l : List ℚ) (a x : ℚ), x ∈ l → x ≤ l.foldl max a := by
  intro l
  induction l with
  | nil => intro a x hx; simp at hx
  | cons b bs ih =>
    intro a x hx
    rw [List.foldl_cons]
    rcases List.mem_cons.mp hx with h | h
    · subst h
      exact le_trans (le_max_right a x) (le_foldl_max_init bs (max a x))
    · exact ih (max a b) x h

theorem foldl_max_mem : ∀ (l : List ℚ) (a : ℚ), l.foldl max a = a ∨ l.foldl max a ∈ l := by
  intro l
  induction l with
  | nil => intro a; exact Or.inl rfl
  | cons b bs ih =>
    intro a
    rcases ih (max a b) with h | h
    · rcases max_choice a b with hm | hm
      · exact Or.inl (by rw [List.foldl_cons, h, hm])
      · exact Or.inr (by rw [List.foldl_cons, h, hm]; exact List.mem_cons_self b bs)
    · exact Or.inr (List.mem_cons_of_mem b h)

/-- `maxQ` of a nonempty list is an element of it. -/
theorem maxQ_mem : ∀ (l : List ℚ), l ≠ [] → maxQ l ∈ l := by
  intro l hl
  cases l with
  | nil => exact absurd rfl hl
  | cons q qs =>
    show qs.foldl max q ∈ q :: qs
    rcases foldl_max_mem qs q with h | h
    · rw [h]; exact List.mem_cons_self q qs
    · exact List.mem_cons_of_mem q h

/-- `maxQ` bounds every element. -/
theorem le_maxQ : ∀ (l : List ℚ), ∀ x ∈ l, x ≤ maxQ l := by
  intro l x hx
  cases l with
  | nil => simp at hx
  | cons q qs =>
    show x ≤ qs.foldl max q
    rcases List.mem_cons.mp hx with h | h
    · exact h ▸ le_foldl_max_init qs q
    · exact le_foldl_max_mem qs q x h

theorem miuOf_pairs (u : List UsageRow) : ∀ (ks : List (Date × String)),
    (ks.map (miuOf u)).map (fun r => (r.month, r.ingredient)) = ks := by
  intro ks
  induction ks with
  | nil => rfl
  | cons k ks ih => simp [miuOf, ih]

theorem ingrRowOf_pairs (rs : List IngrRow) : ∀ (ks : List (String × String)),
    (ks.map (ingrRowOf rs)).map (fun r => (r.item, r.ingredient)) = ks := by
  intro ks
  induction ks with
  | nil => rfl
  | cons k ks ih => simp [ingrRowOf, ih]

theorem combOf_month (r : MIURow) (o : Option ShipRow) : (combOf r o).month = r.month := by
  cases o <;> rfl

theorem combOf_ingredient (r : MIURow) (o : Option ShipRow) :
    (combOf r o).ingredient = r.ingredient := by
  cases o <;> rfl

theorem combOf_totalUsed (r : MIURow) (o : Option ShipRow) :
    (combOf r o).totalUsed = r.totalUsed := by
  cases o <;> rfl

/-- Shipment lookup per ingredient: the supply triple a combined row
receives is a function of the Ingredient alone. -/
def supplyOf (ship : List ShipRow) (g : String) : Option ℚ × Option ℚ × Option String :=
  match ship.find? (fun s => s.ingredient == g) with
  | none => (none, none, none)
  | some s => (some s.totalReceived, some s.weeklySupply, some s.unit)

theorem combOf_supply (r : MIURow) (ship : List ShipRow) :
    ((combOf r (ship.find? (fun s => s.ingredient == r.ingredient))).totalReceived,
     (combOf r (ship.find? (fun s => s.ingredient == r.ingredient))).weeklySupply,
     (combOf r (ship.find? (fun s => s.ingredient == r.ingredient))).unit) =
      supplyOf ship r.ingredient := by
  cases hf : ship.find? (fun s => s.ingredient == r.ingredient) with
  | none => simp [combOf, supplyOf, hf]
  | some s => simp [combOf, supplyOf, hf]

/-- Cell whose value is a date (a typical spreadsheet date entry). -/
def dCell (y : Int) (m d : Nat) : Cell := ⟨some ⟨y, m, d⟩, none, none, ""⟩

/-- Cell whose value is a number. -/
def nCell (q : ℚ) : Cell := ⟨none, none, some q, "0"⟩

/-- Cell whose value is a plain (non-date, non-numeric) string. -/
def sCell (s : String) : Cell := ⟨none, none, none, s⟩

/-- A successful ingredient-map cleaning returns exactly the grouped
collapse of the preprocessed rows. -/
theorem clean_ingredient_map_ok (t : RawTable) (rows : List IngrRow)
    (h : clean_ingredient_map t = Except.ok rows) :
    rows = groupMaxUnits (ingrPreOf t) := by
  unfold clean_ingredient_map at h
  cases h1 : pickCol (t.cols.map sTrim) ["Item Name", "Item name", "item"] with
  | none => simp only [h1] at h; cases h
  | some ic =>
    cases h2 : pickCol (t.cols.map sTrim) ["Ingredient", "Ingrediant", "Ingredients"] with
    | none => simp only [h1, h2] at h; cases h
    | some gc =>
      cases h3 : pickCol (t.cols.map sTrim)
          ["Units per Item", "Units per item", "Units_per_Item", "Unit per item"] with
      | none => simp only [h1, h2, h3] at h; cases h
      | some uc =>
        simp only [h1, h2, h3] at h
        cases h
        rfl

/-- Rows surviving the ingredient-map preprocessing have non-empty
trimmed Item Name and Ingredient. -/
theorem mem_ingrPreOf (t : RawTable) {x : IngrRow} (hx : x ∈ ingrPreOf t) :
    x.item ≠ "" ∧ x.ingredient ≠ "" := by
  simp only [ingrPreOf] at hx
  split at hx
  · rcases List.mem_filter.mp hx with ⟨-, hcond⟩
    simp only [Bool.and_eq_true, decide_eq_true_eq] at hcond
    exact hcond
  · simp at hx

/-- C10: after ingredient-map normalization, (ItemName, Ingredient) pairs
are unique; rows with an empty (post-trim) ItemName or Ingredient are
dropped; each surviving pair appears once with Units-per-Item equal to the
maximum over its duplicate input rows; and every kept input row is
represented. -/
theorem c10_duplicate_mapping_collapse (t : RawTable) (rows : List IngrRow)
    (h : clean_ingredient_map t = Except.ok rows) :
    (rows.map (fun r => (r.item, r.ingredient))).Nodup ∧
    (∀ r ∈ rows, r.item ≠ "" ∧ r.ingredient ≠ "") ∧
    (∀ r ∈ rows,
      r.units = maxQ (((ingrPreOf t).filter
        (fun x => x.item == r.item && x.ingredient == r.ingredient)).map
          (fun x => x.units)) ∧
      (∃ x ∈ ingrPreOf t, x.item = r.item ∧ x.ingredient = r.ingredient ∧
        x.units = r.units) ∧
      (∀ x ∈ ingrPreOf t, x.item = r.item → x.ingredient = r.ingredient →
        x.units ≤ r.units)) ∧
    (∀ x ∈ ingrPreOf t, ∃ r ∈ rows, r.item = x.item ∧ r.ingredient = x.ingredient) := by
  have hrows := clean_ingredient_map_ok t rows h
  subst hrows
  set pre := ingrPreOf t with hpre
  have hmain : ∀ r ∈ groupMaxUnits pre,
      r.units = maxQ ((pre.filter
        (fun x => x.item == r.item && x.ingredient == r.ingredient)).map
          (fun x => x.units)) ∧
      (∃ x ∈ pre, x.item = r.item ∧ x.ingredient = r.ingredient ∧
        x.units = r.units) ∧
      (∀ x ∈ pre, x.item = r.item → x.ingredient = r.ingredient →
        x.units ≤ r.units) := by
    intro r hr
    rcases List.mem_map.mp hr with ⟨k, hk, rfl⟩
    have hkeys := (mem_groupKeys ingrKeyLE (pre.map (fun r => (r.item, r.ingredient))) k).mp hk
    rcases List.mem_map.mp hkeys with ⟨x, hx, hxk⟩
    have hfilt : x ∈ pre.filter (fun y => y.item == k.1 && y.ingredient == k.2) := by
      rw [List.mem_filter]
      exact ⟨hx, by simp [← hxk]⟩
    have hne : (pre.filter (fun y => y.item == k.1 && y.ingredient == k.2)).map
        (fun y => y.units) ≠ [] := by
      intro hnil
      rw [List.map_eq_nil_iff] at hnil
      rw [hnil] at hfilt
      exact absurd hfilt (List.not_mem_nil x)
    refine ⟨rfl, ?_, ?_⟩
    · have hmem := maxQ_mem _ hne
      rcases List.mem_map.mp hmem with ⟨y, hy, hyu⟩
      rcases List.mem_filter.mp hy with ⟨hypre, hycond⟩
      simp only [Bool.and_eq_true, beq_iff_eq] at hycond
      exact ⟨y, hypre, by simp [ingrRowOf, hycond.1], by simp [ingrRowOf, hycond.2],
        by simp [ingrRowOf, hyu]⟩
    · intro y hy h1 h2
      have hyf : y ∈ pre.filter (fun z => z.item == k.1 && z.ingredient == k.2) := by
        rw [List.mem_filter]
        refine ⟨hy, ?_⟩
        simp only [ingrRowOf] at h1 h2
        simp [h1, h2]
      exact le_maxQ _ _ (List.mem_map_of_mem (fun z => z.units) hyf)
  refine ⟨?_, ?_, hmain, ?_⟩
  · rw [groupMaxUnits, ingrRowOf_pairs]
    exact nodup_groupKeys _ _
  · intro r hr
    rcases (hmain r hr).2.1 with ⟨x, hx, h1, h2, -⟩
    have hne := mem_ingrPreOf t hx
    exact ⟨h1 ▸ hne.1, h2 ▸ hne.2⟩
  · intro x hx
    have hk : (x.item, x.ingredient) ∈
        groupKeys ingrKeyLE (pre.map (fun r => (r.item, r.ingredient))) := by
      rw [mem_groupKeys]
      exact List.mem_map_of_mem (fun r => (r.item, r.ingredient)) hx
    exact ⟨ingrRowOf pre (x.item, x.ingredient),
      List.mem_map_of_mem (ingrRowOf pre) hk, rfl, rfl⟩

/-- Ingredient map with two rows for the same (ItemName, Ingredient) pair,
carrying Units per Item 2 and 5. -/
def c10Tbl : RawTable :=
  ⟨["Item Name", "Ingredient", "Units per Item"],
   [[sCell "Noodles", sCell "Flour", nCell 2],
    [sCell "Noodles", sCell "Flour", nCell 5]]⟩

/-- C10 witness: the duplicate pair collapses to a single row with the
maximum Units per Item 5, and the cleaned pairs are unique. -/
theorem c10_duplicate_mapping_collapse_witness :
    clean_ingredient_map c10Tbl = Except.ok [⟨"Noodles", "Flour", 5⟩] ∧
    (([(⟨"Noodles", "Flour", 5⟩ : IngrRow)]).map
      (fun r => (r.item, r.ingredient))).Nodup := by
  constructor
  · decide
  · exact (c10_duplicate_mapping_collapse c10Tbl [⟨"Noodles", "Flour", 5⟩] (by decide)).1

/-- Sales table lacking the optional Amount column. -/
def c2Sales : RawTable :=
  ⟨["Month", "Item Name", "Count"],
   [[dCell 2025 1 1, sCell "Pho", nCell 2]]⟩

/-- Shipment table lacking the optional Frequency column. -/
def c2Ship : RawTable :=
  ⟨["Ingredient", "Quantity per Shipment", "Number of Shipments"],
   [[sCell "Flour", nCell 10, nCell 4]]⟩

/-- C2: with the optional Amount column absent, `df.get("Amount", 0)`
returns the scalar int 0 and the chained `.astype(str)` raises
`AttributeError`, so `clean_sales` aborts instead of defaulting Amount to
0; likewise `df.get("Frequency", "weekly").astype(str)` raises on the
scalar str default, so `clean_shipments` aborts instead of treating every
row as weekly.  This contradicts both the claim and the intent expressed
by those very defaults. -/
theorem c2_missing_optional_column_raises :
    clean_sales c2Sales =
      Except.error (.attributeError "int object has no attribute astype") ∧
    clean_shipments c2Ship =
      Except.error (.attributeError "str object has no attribute astype") := by
  constructor
  · decide
  · decide

/-- Sales table whose Month value parses neither directly nor with
" 1, 2025" appended; all other columns are fine. -/
def c5Tbl : RawTable :=
  ⟨["Month", "Item Name", "Count", "Amount"],
   [[sCell "garbage", sCell "Pho", nCell 2, sCell "0"]]⟩

/-- C5 counterexample: this table passes every column check, yet the
normalized row carries a null Month — "Month is never null after
normalization" fails whenever a value cannot be parsed in the applicable
pass. -/
theorem c5_counterexample :
    clean_sales c5Tbl = Except.ok [⟨none, "Pho", 2, 0⟩] := by
  decide

/-- Sales table with no Month-like column at all. -/
def c6Tbl : RawTable :=
  ⟨["Item Name", "Count", "Amount"],
   [[sCell "Pho", nCell 2, sCell "0"]]⟩

/-- C6 counterexample: the sales-table `SchemaError` ("Sales sheet is
missing a 'Month' column.") names the missing canonical field but does not
list the columns actually present (`found = none` in the model), so the
claim that every such message includes the full column list is false. -/
theorem c6_counterexample :
    clean_sales c6Tbl = Except.error (.schemaError ["Month"] none) := by
  decide

/-- Sales table identical to a passing one except that the Month column is
labelled in lowercase. -/
def c9TblLower : RawTable :=
  ⟨["month", "Item Name", "Count", "Amount"],
   [[dCell 2025 1 1, sCell "Pho", nCell 2, sCell "0"]]⟩

def c9TblUpper : RawTable :=
  ⟨["Month", "Item Name", "Count", "Amount"],
   [[dCell 2025 1 1, sCell "Pho", nCell 2, sCell "0"]]⟩

/-- C9 counterexample: two sales tables with equal values whose column
labels differ only in the case of "Month": the canonically spelled one
passes, the lowercase one aborts with a SchemaError, because only the
aliased labels (item name/item/qty/quantity) are matched
case-insensitively — "Month" is matched case-sensitively. -/
theorem c9_counterexample :
    clean_sales c9TblLower = Except.error (.schemaError ["Month"] none) ∧
    clean_sales c9TblUpper = Except.ok [⟨some ⟨2025, 1, 1⟩, "Pho", 2, 0⟩] := by
  constructor
  · decide
  · decide

/-- A present column selects one cell per table row. -/
theorem getCol_length (t : RawTable) (c : String) (hc : c ∈ t.cols) :
    (getCol t c).length = t.rows.length := by
  unfold getCol
  cases hidx : t.cols.findIdx? (fun x => x == c) with
  | some i => exact List.length_map t.rows _
  | none =>
    rw [List.findIdx?_eq_none_iff] at hidx
    have := hidx c hc
    simp at this

theorem mkSalesRows_map_month : ∀ (mos : List (Option Date)) (its : List String)
    (cs amts : List ℚ), its.length = mos.length → cs.length = mos.length →
    amts.length = mos.length →
    (mkSalesRows mos its cs amts).map (fun r => r.month) = mos := by
  intro mos
  induction mos with
  | nil =>
    intro its cs amts _ _ _
    rfl
  | cons mo mos ih =>
    intro its cs amts h1 h2 h3
    cases its with
    | nil => simp at h1
    | cons it its =>
      cases cs with
      | nil => simp at h2
      | cons c cs =>
        cases amts with
        | nil => simp at h3
        | cons a amts =>
          simp only [mkSalesRows, List.map_cons]
          rw [ih its cs amts (by simpa using h1) (by simpa using h2)
            (by simpa using h3)]

/-- A successful sales cleaning is exactly the four cleaned columns zipped
into records, and all four columns were present after renaming. -/
theorem clean_sales_ok (t : RawTable) (rows : List SalesRow)
    (h : clean_sales t = Except.ok rows) :
    rows = mkSalesRows (normalize_month (getCol (salesCanonTable t) "Month"))
      ((getCol (salesCanonTable t) "Item Name").map (fun c => c.asStr))
      ((getCol (salesCanonTable t) "Count").map (fun c => c.asNum.getD 0))
      ((getCol (salesCanonTable t) "Amount").map cleanAmount) ∧
    "Month" ∈ (salesCanonTable t).cols ∧ "Amount" ∈ (salesCanonTable t).cols ∧
    "Count" ∈ (salesCanonTable t).cols ∧ "Item Name" ∈ (salesCanonTable t).cols := by
  unfold clean_sales cleanSalesCanon at h
  split at h
  · split at h
    · split at h
      · split at h
        · cases h
          refine ⟨rfl, ?_, ?_, ?_, ?_⟩ <;> assumption
        · cases h
      · cases h
    · cases h
  · cases h

theorem normalize_month_length (col : List Cell) :
    (normalize_month col).length = col.length := by
  simp only [normalize_month]
  split <;> simp

/-- Every non-null normalized month is truncated to the first of the
month. -/
theorem normalize_month_month_start (col : List Cell) :
    ∀ x ∈ normalize_month col, ∀ dt : Date, x = some dt → dt.d = 1 := by
  intro x hx dt hdt
  unfold normalize_month at hx
  rcases List.mem_map.mp hx with ⟨o, _, rfl⟩
  cases o with
  | none => cases hdt
  | some d0 =>
    simp only [Option.map_some'] at hdt
    cases hdt
    rfl

/-- C5 (amended): after a successful sales cleaning, the record months are
exactly `normalize_month` of the renamed Month column — the retry parse
(value with " 1, 2025" appended) is used only when every value fails the
first parse, a value failing its applicable pass leaves a null Month, and
every non-null Month is truncated to the first of its month. -/
theorem c5_month_normalization (t : RawTable) (rows : List SalesRow)
    (h : clean_sales t = Except.ok rows) :
    rows.map (fun r => r.month) = normalize_month (getCol (salesCanonTable t) "Month") ∧
    (∀ r ∈ rows, ∀ dt : Date, r.month = some dt → dt.d = 1) ∧
    (let col := getCol (salesCanonTable t) "Month"
     if (col.map (fun c => c.asDate)).all (fun o => o.isNone)
     then rows.map (fun r => r.month) = col.map (fun c => c.asDateRetry.map truncMonth)
     else rows.map (fun r => r.month) = col.map (fun c => c.asDate.map truncMonth)) := by
  obtain ⟨hrows, hM, hA, hC, hI⟩ := clean_sales_ok t rows h
  have hrlen : (salesCanonTable t).rows = t.rows := rfl
  have hlenM : (getCol (salesCanonTable t) "Month").length = t.rows.length := by
    rw [getCol_length _ _ hM, hrlen]
  have hmap : rows.map (fun r => r.month) =
      normalize_month (getCol (salesCanonTable t) "Month") := by
    rw [hrows]
    apply mkSalesRows_map_month
    · rw [List.length_map, getCol_length _ _ hI, hrlen, normalize_month_length, hlenM]
    · rw [List.length_map, getCol_length _ _ hC, hrlen, normalize_month_length, hlenM]
    · rw [List.length_map, getCol_length _ _ hA, hrlen, normalize_month_length, hlenM]
  refine ⟨hmap, ?_, ?_⟩
  · intro r hr dt hdt
    exact normalize_month_month_start _ _
      (hmap ▸ List.mem_map_of_mem (fun r : SalesRow => r.month) hr) dt hdt
  · rw [hmap]
    simp only [normalize_month]
    split
    · rw [List.map_map]
      rfl
    · rw [List.map_map]
      rfl

/-- Sales table whose Month value fails the first parse but succeeds with
" 1, 2025" appended (a bare month name such as "January"). -/
def c5MonthNameTbl : RawTable :=
  ⟨["Month", "Item Name", "Count", "Amount"],
   [[⟨none, some ⟨2025, 1, 1⟩, none, "January"⟩, sCell "Pho", nCell 2, sCell "0"]]⟩

/-- C5 witness: on a concrete table whose single Month value only parses
on the retry pass, the amended theorem applies and the month comes out as
2025-01-01. -/
theorem c5_month_normalization_witness :
    clean_sales c5MonthNameTbl = Except.ok [⟨some ⟨2025, 1, 1⟩, "Pho", 2, 0⟩] ∧
    (∀ r ∈ [(⟨some ⟨2025, 1, 1⟩, "Pho", 2, 0⟩ : SalesRow)], ∀ dt : Date,
      r.month = some dt → dt.d = 1) := by
  refine ⟨by decide, ?_⟩
  exact (c5_month_normalization c5MonthNameTbl [⟨some ⟨2025, 1, 1⟩, "Pho", 2, 0⟩]
    (by decide)).2.1

/-- C9 (amended): `clean_sales` depends on the column labels only through
trim-and-alias canonicalization, so two sales tables with equal rows and
canonically equal labels produce identical output and identical
MonthlyIngredientUsage. -/
theorem c9_alias_invariance (t1 t2 : RawTable)
    (hc : t1.cols.map salesCanon = t2.cols.map salesCanon)
    (hr : t1.rows = t2.rows) :
    clean_sales t1 = clean_sales t2 ∧
    ∀ ingr : List IngrRow,
      (clean_sales t1).map (fun s => usage_by_month_ing (usageRows s ingr)) =
      (clean_sales t2).map (fun s => usage_by_month_ing (usageRows s ingr)) := by
  have h : clean_sales t1 = clean_sales t2 := by
    unfold clean_sales salesCanonTable
    rw [hc, hr]
  exact ⟨h, fun ingr => by rw [h]⟩

/-- The Count column labelled with the alias "qty" instead of "Count". -/
def c9TblQty : RawTable :=
  ⟨["Month", "Item Name", "qty", "Amount"],
   [[dCell 2025 1 1, sCell "Pho", nCell 2, sCell "0"]]⟩

/-- C9 witness: a table using "qty" cleans identically to the table using
"Count", and both succeed. -/
theorem c9_alias_invariance_witness :
    clean_sales c9TblQty = clean_sales c9TblUpper ∧
    clean_sales c9TblQty = Except.ok [⟨some ⟨2025, 1, 1⟩, "Pho", 2, 0⟩] := by
  refine ⟨(c9_alias_invariance c9TblQty c9TblUpper (by decide) rfl).1, by decide⟩

/-- Ingredient-map schema failures carry the trimmed column list, and at
least one missing canonical name. -/
theorem clean_ingredient_map_error (t : RawTable) (m : List String)
    (f : Option (List String))
    (h : clean_ingredient_map t = Except.error (.schemaError m f)) :
    f = some (t.cols.map sTrim) ∧ m ≠ [] := by
  unfold clean_ingredient_map at h
  cases h1 : pickCol (t.cols.map sTrim) ["Item Name", "Item name", "item"] <;>
    cases h2 : pickCol (t.cols.map sTrim) ["Ingredient", "Ingrediant", "Ingredients"] <;>
      cases h3 : pickCol (t.cols.map sTrim)
        ["Units per Item", "Units per item", "Units_per_Item", "Unit per item"] <;>
    simp only [h1, h2, h3] at h <;>
    [skip; skip; skip; skip; skip; skip; skip; cases h] <;>
  · rw [Except.error.injEq, CleanError.schemaError.injEq] at h
    refine ⟨h.2.symm, ?_⟩
    rw [← h.1]
    simp

/-- Shipment schema failures carry the renamed column list and at least
one missing canonical name. -/
theorem clean_shipments_error (t : RawTable) (m : List String)
    (f : Option (List String))
    (h : clean_shipments t = Except.error (.schemaError m f)) :
    f = some (t.cols.map shipCanon) ∧ m ≠ [] := by
  simp only [clean_shipments, cleanShipmentsCanon] at h
  split at h
  · next hmiss =>
      rw [Except.error.injEq, CleanError.schemaError.injEq] at h
      refine ⟨h.2.symm, ?_⟩
      rw [← h.1]
      exact hmiss
  · split at h
    · cases h
    · rw [Except.error.injEq] at h
      simp at h

/-- Sales schema failures name exactly one canonical column and never
include the column list. -/
theorem clean_sales_error (t : RawTable) (m : List String)
    (f : Option (List String))
    (h : clean_sales t = Except.error (.schemaError m f)) :
    f = none ∧ (m = ["Month"] ∨ m = ["Count"] ∨ m = ["Item Name"]) := by
  unfold clean_sales cleanSalesCanon at h
  split at h
  · split at h
    · split at h
      · split at h
        · cases h
        · rw [Except.error.injEq, CleanError.schemaError.injEq] at h
          exact ⟨h.2.symm, Or.inr (Or.inr h.1.symm)⟩
      · rw [Except.error.injEq, CleanError.schemaError.injEq] at h
        exact ⟨h.2.symm, Or.inr (Or.inl h.1.symm)⟩
    · rw [Except.error.injEq] at h
      cases h
  · rw [Except.error.injEq, CleanError.schemaError.injEq] at h
    exact ⟨h.2.symm, Or.inl h.1.symm⟩

/-- A run that produces rows had all three cleanings succeed; a failed
cleaning therefore yields no output rows. -/
theorem pipeline_ok_iff (sT iT shT : RawTable) (rows : List LedgerRow)
    (h : pipeline sT iT shT = Except.ok rows) :
    (∃ s, clean_sales sT = Except.ok s) ∧
    (∃ i, clean_ingredient_map iT = Except.ok i) ∧
    (∃ sh, clean_shipments shT = Except.ok sh) := by
  unfold pipeline at h
  cases hs : clean_sales sT with
  | error e => rw [hs] at h; cases h
  | ok s =>
    rw [hs] at h
    cases hi : clean_ingredient_map iT with
    | error e => rw [hi] at h; cases h
    | ok i =>
      rw [hi] at h
      cases hsh : clean_shipments shT with
      | error e => rw [hsh] at h; cases h
      | ok sh => exact ⟨⟨s, rfl⟩, ⟨i, rfl⟩, ⟨sh, rfl⟩⟩

/-- C6 (amended): schema-failure messages carry the missing canonical
field name(s) always, and the full present-column list only for the
ingredient-map and shipment tables — the sales-table messages name one
missing column without the column list; any cleaning failure halts the
run before any output row is produced. -/
theorem c6_schema_error_message_content :
    (∀ t m f, clean_ingredient_map t = Except.error (.schemaError m f) →
      f = some (t.cols.map sTrim) ∧ m ≠ []) ∧
    (∀ t m f, clean_shipments t = Except.error (.schemaError m f) →
      f = some (t.cols.map shipCanon) ∧ m ≠ []) ∧
    (∀ t m f, clean_sales t = Except.error (.schemaError m f) →
      f = none ∧ (m = ["Month"] ∨ m = ["Count"] ∨ m = ["Item Name"])) ∧
    (∀ sT iT shT rows, pipeline sT iT shT = Except.ok rows →
      (∃ s, clean_sales sT = Except.ok s) ∧
      (∃ i, clean_ingredient_map iT = Except.ok i) ∧
      (∃ sh, clean_shipments shT = Except.ok sh)) :=
  ⟨clean_ingredient_map_error, clean_shipments_error, clean_sales_error, pipeline_ok_iff⟩

/-- C6 witness: concrete failures of each cleaner, with the theorem
applied to them. -/
theorem c6_schema_error_message_content_witness :
    clean_ingredient_map (⟨["foo"], []⟩ : RawTable) =
      Except.error (.schemaError ["Item Name", "Ingredient", "Units per Item"]
        (some ["foo"])) ∧
    (some ((⟨["foo"], []⟩ : RawTable).cols.map sTrim) =
        some ["Item Name", "Ingredient", "Units per Item"] ∨
      (["Item Name", "Ingredient", "Units per Item"] : List String) ≠ []) := by
  refine ⟨by decide, Or.inr ?_⟩
  exact (c6_schema_error_message_content.1 ⟨["foo"], []⟩
    ["Item Name", "Ingredient", "Units per Item"] (some ["foo"]) (by decide)).2

/-- C4: a combined-ledger row is flagged "Reorder Soon" precisely when its
TotalReceived is non-null and strictly below ForecastNextMonth — the NaN
(null) TotalReceived of an unmatched ingredient compares false, as under
IEEE ordering — and "OK" in every other case; in particular equality gives
"OK". -/
theorem c4_reorder_classification (sales : List SalesRow) (ingr : List IngrRow)
    (ship : List ShipRow) (row : LedgerRow)
    (h : row ∈ combinedLedger sales ingr ship) :
    (row.reorderFlag = "Reorder Soon" ↔
      ∃ q, row.totalReceived = some q ∧ q < row.forecastNextMonth) ∧
    (∀ q, row.totalReceived = some q → row.forecastNextMonth = q →
      row.reorderFlag = "OK") ∧
    (row.reorderFlag = "Reorder Soon" ∨ row.reorderFlag = "OK") := by
  rcases mem_addForecast h with ⟨r, fc, rfl⟩
  cases hq : r.totalReceived with
  | none =>
    refine ⟨?_, ?_, ?_⟩ <;> simp [finishRow, gtReceived, hq]
  | some q =>
    by_cases hlt : q < fc
    · have hflag : (finishRow r fc).reorderFlag = "Reorder Soon" := by
        simp [finishRow, gtReceived, hq, hlt]
      refine ⟨?_, ?_, ?_⟩
      · rw [hflag]
        constructor
        · intro _
          exact ⟨q, by rw [show (finishRow r fc).totalReceived = r.totalReceived from rfl, hq],
            hlt⟩
        · intro _
          rfl
      · intro q2 hq2 hfc2
        rw [show (finishRow r fc).totalReceived = r.totalReceived from rfl, hq] at hq2
        rw [show (finishRow r fc).forecastNextMonth = fc from rfl] at hfc2
        injection hq2 with hq2e
        rw [hq2e, hfc2] at hlt
        exact absurd hlt (lt_irrefl q2)
      · exact Or.inl hflag
    · refine ⟨?_, ?_, ?_⟩
      · simp only [finishRow, gtReceived, hq]
        rw [if_neg (by simpa using hlt)]
        constructor
        · intro hRS
          exact absurd hRS (by decide)
        · rintro ⟨q', hq', hlt'⟩
          cases hq'
          exact absurd hlt' hlt
      · intro q' _ _
        simp only [finishRow, gtReceived, hq]
        rw [if_neg (by simpa using hlt)]
      · simp only [finishRow, gtReceived, hq]
        rw [if_neg (by simpa using hlt)]
        exact Or.inr rfl

/-- Every usage-aggregate row survives into the combined ledger, whether
or not its ingredient has a shipment row. -/
theorem miu_row_in_ledger (sales : List SalesRow) (ingr : List IngrRow)
    (ship : List ShipRow) (mi : MIURow)
    (hmi : mi ∈ usage_by_month_ing (usageRows sales ingr)) :
    ∃ row ∈ combinedLedger sales ingr ship,
      row.month = mi.month ∧ row.ingredient = mi.ingredient ∧
      row.totalUsed = mi.totalUsed := by
  have hc : ∃ c ∈ mergeShip (usage_by_month_ing (usageRows sales ingr)) ship,
      c.month = mi.month ∧ c.ingredient = mi.ingredient ∧
      c.totalUsed = mi.totalUsed := by
    cases hf : ship.filter (fun s => s.ingredient == mi.ingredient) with
    | nil =>
      refine ⟨⟨mi.month, mi.ingredient, mi.totalUsed, mi.orders, none, none, none⟩,
        ?_, rfl, rfl, rfl⟩
      rw [mergeShip, List.mem_flatMap]
      refine ⟨mi, hmi, ?_⟩
      rw [hf]
      exact List.mem_singleton.mpr rfl
    | cons s rest =>
      refine ⟨⟨mi.month, mi.ingredient, mi.totalUsed, mi.orders,
        some s.totalReceived, some s.weeklySupply, some s.unit⟩, ?_, rfl, rfl, rfl⟩
      rw [mergeShip, List.mem_flatMap]
      refine ⟨mi, hmi, ?_⟩
      rw [hf]
      exact List.mem_map_of_mem _ (List.mem_cons_self s rest)
  rcases hc with ⟨c, hcm, h1, h2, h3⟩
  have hcs : c ∈ sortComb (mergeShip (usage_by_month_ing (usageRows sales ingr)) ship) :=
    ((sortComb_perm _).mem_iff).mpr hcm
  have hmapped : c ∈ (combinedLedger sales ingr ship).map stripF := by
    unfold combinedLedger
    rw [addForecast_map_stripF]
    exact hcs
  rcases List.mem_map.mp hmapped with ⟨row, hrow, hstrip⟩
  refine ⟨row, hrow, ?_, ?_, ?_⟩
  · rw [show row.month = (stripF row).month from rfl, hstrip]
    exact h1
  · rw [show row.ingredient = (stripF row).ingredient from rfl, hstrip]
    exact h2
  · rw [show row.totalUsed = (stripF row).totalUsed from rfl, hstrip]
    exact h3

/-- C1 (amended): rows for ingredients absent from the shipment table do
surface in the ledger, but their supply fields are NaN, the NaN propagates
into Gap_Received_vs_Used (it is not computed with 0), and because a
comparison against NaN is false they are flagged "OK", never
"Reorder Soon". -/
theorem c1_missing_shipment_semantics (sales : List SalesRow) (ingr : List IngrRow)
    (ship : List ShipRow) :
    (∀ row ∈ combinedLedger sales ingr ship, row.totalReceived = none →
      row.gap = none ∧ row.reorderFlag = "OK") ∧
    (∀ mi ∈ usage_by_month_ing (usageRows sales ingr),
      ∃ row ∈ combinedLedger sales ingr ship,
        row.month = mi.month ∧ row.ingredient = mi.ingredient ∧
        row.totalUsed = mi.totalUsed) := by
  constructor
  · intro row hrow hnone
    rcases mem_addForecast hrow with ⟨r, fc, rfl⟩
    have hr : r.totalReceived = none := hnone
    constructor
    · show r.totalReceived.map _ = none
      rw [hr]
      rfl
    · show (if gtReceived fc r.totalReceived then "Reorder Soon" else "OK") = "OK"
      rw [hr]
      rfl
  · exact miu_row_in_ledger sales ingr ship

/-- One month of Flour usage, with an empty shipment table. -/
def c1Sales : List SalesRow := [⟨some ⟨2025, 1, 1⟩, "Noodles", 10, 0⟩]

def c1Ingr : List IngrRow := [⟨"Noodles", "Flour", 1⟩]

unseal Rat.add Rat.mul Rat.inv Rat.sub in
/-- C1 counterexample: Flour appears in usage but not in shipments; its
ledger row has ForecastNextMonth = 10 > 0, yet ReorderFlag is "OK" (not
"Reorder Soon") and Gap_Received_vs_Used is null rather than
TotalUsed - 0: the NaN TotalReceived is not treated as 0. -/
theorem c1_counterexample :
    (combinedLedger c1Sales c1Ingr []).map
      (fun r => (r.totalReceived, r.forecastNextMonth, r.reorderFlag, r.gap)) =
    [(none, 10, "OK", none)] := by
  decide

unseal Rat.add Rat.mul Rat.inv Rat.sub in
/-- C1 witness: the amended theorem applied to the concrete unmatched
Flour row. -/
theorem c1_missing_shipment_semantics_witness :
    (⟨⟨2025, 1, 1⟩, "Flour", 10, 10, none, none, none, 10, none,
      "OK"⟩ : LedgerRow).gap = none ∧
    (⟨⟨2025, 1, 1⟩, "Flour", 10, 10, none, none, none, 10, none,
      "OK"⟩ : LedgerRow).reorderFlag = "OK" :=
  (c1_missing_shipment_semantics c1Sales c1Ingr []).1 _ (by decide) (by decide)

/-- Two ingredients, each receiving 15: IngA is forecast at 20 (strictly
above), IngB at exactly 15. -/
def c4Sales : List SalesRow :=
  [⟨some ⟨2025, 1, 1⟩, "A", 20, 0⟩, ⟨some ⟨2025, 1, 1⟩, "B", 15, 0⟩]

def c4Ingr : List IngrRow := [⟨"A", "IngA", 1⟩, ⟨"B", "IngB", 1⟩]

def c4Ship : List ShipRow := [⟨"IngA", 15, 1, 15, 15, ""⟩, ⟨"IngB", 15, 1, 15, 15, ""⟩]

unseal Rat.add Rat.mul Rat.inv Rat.sub in
/-- C4 witness: TotalReceived 15 with forecast 20 gives "Reorder Soon",
and the equal case 15/15 gives "OK"; the classification theorem applies to
the concrete "Reorder Soon" row. -/
theorem c4_reorder_classification_witness :
    ((⟨⟨2025, 1, 1⟩, "IngA", 20, 20, some 15, some 15, some "", 20, some 5,
        "Reorder Soon"⟩ : LedgerRow).reorderFlag = "Reorder Soon" ↔
      ∃ q, (⟨⟨2025, 1, 1⟩, "IngA", 20, 20, some 15, some 15, some "", 20, some 5,
        "Reorder Soon"⟩ : LedgerRow).totalReceived = some q ∧
        q < (⟨⟨2025, 1, 1⟩, "IngA", 20, 20, some 15, some 15, some "", 20, some 5,
          "Reorder Soon"⟩ : LedgerRow).forecastNextMonth) ∧
    (combinedLedger c4Sales c4Ingr c4Ship).map
      (fun r => (r.ingredient, r.totalReceived, r.forecastNextMonth, r.reorderFlag)) =
      [("IngA", some 15, 20, "Reorder Soon"), ("IngB", some 15, 15, "OK")] :=
  ⟨(c4_reorder_classification c4Sales c4Ingr c4Ship _ (by decide)).1, by decide⟩

theorem addForecast_map_pairs : ∀ (l seen : List CombRow),
    (addForecast seen l).map (fun lr => (lr.month, lr.ingredient)) =
      l.map (fun r => (r.month, r.ingredient)) := by
  intro l
  induction l with
  | nil => intro seen; rfl
  | cons r rest ih => intro seen; simp [addForecast, finishRow, ih]

theorem usage_by_month_ing_pairs_nodup (u : List UsageRow) :
    ((usage_by_month_ing u).map (fun r => (r.month, r.ingredient))).Nodup := by
  unfold usage_by_month_ing
  rw [miuOf_pairs]
  exact nodup_groupKeys _ _

/-- With no duplicate shipment ingredients, ledger (Month, Ingredient)
pairs are a permutation of the usage-aggregate pairs. -/
theorem ledger_pairs_perm (sales : List SalesRow) (ingr : List IngrRow)
    (ship : List ShipRow) (hship : (ship.map (fun s => s.ingredient)).Nodup) :
    ((combinedLedger sales ingr ship).map (fun r => (r.month, r.ingredient))).Perm
      ((usage_by_month_ing (usageRows sales ingr)).map
        (fun r => (r.month, r.ingredient))) := by
  unfold combinedLedger
  rw [addForecast_map_pairs]
  have hperm := (sortComb_perm
    (mergeShip (usage_by_month_ing (usageRows sales ingr)) ship)).map
      (fun r : CombRow => (r.month, r.ingredient))
  refine hperm.trans ?_
  rw [mergeShip_eq_map _ _ hship, List.map_map]
  have : ((fun r : CombRow => (r.month, r.ingredient)) ∘
      (fun r => combOf r (ship.find? (fun s => s.ingredient == r.ingredient)))) =
      (fun r : MIURow => (r.month, r.ingredient)) := by
    funext r
    simp [Function.comp, combOf_month, combOf_ingredient]
  rw [this]

/-- C8 (amended): provided the shipment table has at most one row per
ingredient, the combined ledger has exactly one row per (Month,
Ingredient) pair of the usage aggregate, and the supply columns
TotalReceived / WeeklySupply / Unit of each row are the per-Ingredient
lookup `supplyOf`, independent of the month. -/
theorem c8_one_row_per_pair (sales : List SalesRow) (ingr : List IngrRow)
    (ship : List ShipRow) (hship : (ship.map (fun s => s.ingredient)).Nodup) :
    ((combinedLedger sales ingr ship).map (fun r => (r.month, r.ingredient))).Perm
      ((usage_by_month_ing (usageRows sales ingr)).map
        (fun r => (r.month, r.ingredient))) ∧
    ((combinedLedger sales ingr ship).map (fun r => (r.month, r.ingredient))).Nodup ∧
    (∀ row ∈ combinedLedger sales ingr ship,
      (row.totalReceived, row.weeklySupply, row.unit) = supplyOf ship row.ingredient) := by
  refine ⟨ledger_pairs_perm sales ingr ship hship,
    (ledger_pairs_perm sales ingr ship hship).symm.nodup
      (usage_by_month_ing_pairs_nodup _), ?_⟩
  intro row hrow
  have hmapped : stripF row ∈
      sortComb (mergeShip (usage_by_month_ing (usageRows sales ingr)) ship) := by
    have h := List.mem_map_of_mem stripF hrow
    unfold combinedLedger at h
    rwa [addForecast_map_stripF] at h
  have hmerged : stripF row ∈
      mergeShip (usage_by_month_ing (usageRows sales ingr)) ship :=
    (sortComb_perm _).mem_iff.mp hmapped
  rw [mergeShip_eq_map _ _ hship] at hmerged
  rcases List.mem_map.mp hmerged with ⟨mi, _, hcomb⟩
  have h1 : (row.totalReceived, row.weeklySupply, row.unit) =
      ((combOf mi (ship.find? (fun s => s.ingredient == mi.ingredient))).totalReceived,
       (combOf mi (ship.find? (fun s => s.ingredient == mi.ingredient))).weeklySupply,
       (combOf mi (ship.find? (fun s => s.ingredient == mi.ingredient))).unit) := by
    rw [hcomb]
    rfl
  have hing : row.ingredient = mi.ingredient := by
    rw [show row.ingredient = (stripF row).ingredient from rfl, ← hcomb,
      combOf_ingredient]
  rw [h1, combOf_supply, hing]

/-- Shipment table repeating the ingredient Flour. -/
def c8ShipDup : List ShipRow := [⟨"Flour", 1, 1, 1, 1, "kg"⟩, ⟨"Flour", 2, 1, 2, 2, "kg"⟩]

unseal Rat.add Rat.mul Rat.inv Rat.sub in
/-- C8 counterexample: with a duplicated shipment ingredient, the merge
fans out and the ledger holds two rows for the single (Month, Ingredient)
pair of the usage aggregate — "exactly one row per pair" fails on such
inputs. -/
theorem c8_counterexample :
    (combinedLedger c1Sales c1Ingr c8ShipDup).map (fun r => (r.month, r.ingredient)) =
      [(⟨2025, 1, 1⟩, "Flour"), (⟨2025, 1, 1⟩, "Flour")] ∧
    (usage_by_month_ing (usageRows c1Sales c1Ingr)).map
      (fun r => (r.month, r.ingredient)) = [(⟨2025, 1, 1⟩, "Flour")] := by
  decide

unseal Rat.add Rat.mul Rat.inv Rat.sub in
/-- C8 witness: on a duplicate-free shipment table the amended theorem
applies; the concrete ledger has one row per pair. -/
theorem c8_one_row_per_pair_witness :
    ((combinedLedger c4Sales c4Ingr c4Ship).map
      (fun r => (r.month, r.ingredient))).Nodup ∧
    (combinedLedger c4Sales c4Ingr c4Ship).map (fun r => (r.month, r.ingredient)) =
      [(⟨2025, 1, 1⟩, "IngA"), (⟨2025, 1, 1⟩, "IngB")] :=
  ⟨(c8_one_row_per_pair c4Sales c4Ingr c4Ship (by decide)).2.1, by decide⟩

/-- C7 (amended): the on-screen report carries exactly the seven
`report_columns` with rows sorted by (ReorderFlag, Ingredient, Month),
while the CSV download carries all ten `combined_columns` (Orders,
WeeklySupply and Gap_Received_vs_Used included) in ledger order — the
exported artifact does not have the seven-column, flag-sorted shape. -/
theorem c7_report_and_export (rows : List LedgerRow) :
    (displayed_report rows).1 = report_columns ∧
    ((displayed_report rows).2).Perm rows ∧
    ((displayed_report rows).2).Sorted reportLE ∧
    (to_csv rows).1 = combined_columns ∧
    (to_csv rows).2 = rows ∧
    combined_columns ≠ report_columns := by
  exact ⟨rfl, List.perm_insertionSort reportLE rows,
    List.sorted_insertionSort reportLE rows, rfl, rfl, by decide⟩

unseal Rat.add Rat.mul Rat.inv Rat.sub in
/-- C7 counterexample: on a concrete run the CSV download has the
ten-column header (including "Orders"), not the claimed seven, and its
rows keep the (Ingredient, Month) order ["IngA", "IngB"] while the claimed
(ReorderFlag, Ingredient, Month) order would be ["IngB", "IngA"] — so the
exported output is neither restricted to the seven columns nor sorted by
ReorderFlag. -/
theorem c7_counterexample :
    (to_csv (combinedLedger c4Sales c4Ingr c4Ship)).1 ≠ report_columns ∧
    "Orders" ∈ (to_csv (combinedLedger c4Sales c4Ingr c4Ship)).1 ∧
    (to_csv (combinedLedger c4Sales c4Ingr c4Ship)).2.map (fun r => r.ingredient) =
      ["IngA", "IngB"] ∧
    ((displayed_report (combinedLedger c4Sales c4Ingr c4Ship)).2).map
      (fun r => r.ingredient) = ["IngB", "IngA"] := by
  decide

theorem strLTL_irrefl (a : List Char) : strLTL a a = false := by
  cases hv : strLTL a a
  · rfl
  · have h2 := strLTL_asymm a a hv
    rw [hv] at h2
    cases h2

theorem mergeShip_map_pairs (miu : List MIURow) (ship : List ShipRow)
    (hship : (ship.map (fun s => s.ingredient)).Nodup) :
    (mergeShip miu ship).map (fun r : CombRow => (r.month, r.ingredient)) =
      miu.map (fun r => (r.month, r.ingredient)) := by
  rw [mergeShip_eq_map _ _ hship, List.map_map]
  have hcomp : ((fun r : CombRow => (r.month, r.ingredient)) ∘
      (fun r : MIURow => combOf r (ship.find? (fun s => s.ingredient == r.ingredient)))) =
      (fun r : MIURow => (r.month, r.ingredient)) := by
    funext r
    simp [Function.comp, combOf_month, combOf_ingredient]
  rw [hcomp]

/-- The trailing window of the forecast: mean of the entries from position
`max(k-2, 0)` through `k` (natural subtraction realizes the `max`). -/
def windowMean (u : List ℚ) (k : Nat) : ℚ :=
  ((u.take (k+1)).drop (k-2)).sum / (((u.take (k+1)).drop (k-2)).length : ℚ)

set_option maxHeartbeats 1000000 in
/-- C3: for any ingredient, the ledger rows of that ingredient (in output
order) are strictly month-ascending, and the ForecastNextMonth at each
position is the mean of TotalUsed over the current and up to two preceding
months of that ingredient; the shipment table is assumed free of duplicate
ingredients, the case the spec leaves undefined. -/
theorem c3_trailing_forecast_window (sales : List SalesRow) (ingr : List IngrRow)
    (ship : List ShipRow) (g : String)
    (hship : (ship.map (fun s => s.ingredient)).Nodup) :
    List.Sorted (fun a b : LedgerRow => a.month < b.month)
      ((combinedLedger sales ingr ship).filter (fun r => r.ingredient == g)) ∧
    (∀ k row, ((combinedLedger sales ingr ship).filter
        (fun r => r.ingredient == g))[k]? = some row →
      row.forecastNextMonth =
        windowMean (((combinedLedger sales ingr ship).filter
          (fun r => r.ingredient == g)).map (fun r => r.totalUsed)) k) := by
  have hout : combinedLedger sales ingr ship =
      addForecast [] (sortComb (mergeShip (usage_by_month_ing (usageRows sales ingr)) ship)) :=
    rfl
  set miu := usage_by_month_ing (usageRows sales ingr) with hmiu
  set sorted := sortComb (mergeShip miu ship) with hsortd
  set cg := sorted.filter (fun r : CombRow => r.ingredient == g) with hcgdef
  clear_value miu sorted cg
  have hgrp : (combinedLedger sales ingr ship).filter
      (fun r : LedgerRow => r.ingredient == g) = annotateGroup [] cg := by
    rw [hout, hcgdef]
    simpa using addForecast_filter g sorted []
  have hused : (annotateGroup ([] : List ℚ) cg).map (fun lr => lr.totalUsed) =
      cg.map (fun r => r.totalUsed) := annotateGroup_map_used cg []
  constructor
  · have hsc : List.Pairwise combLE sorted := by
      rw [hsortd]
      exact List.sorted_insertionSort combLE _
    have hcgP : List.Pairwise combLE cg := by
      rw [hcgdef]
      exact hsc.filter _
    have hsortNodup : (sorted.map (fun r : CombRow => (r.month, r.ingredient))).Nodup := by
      have hperm := (sortComb_perm (mergeShip miu ship)).map
        (fun r : CombRow => (r.month, r.ingredient))
      rw [← hsortd] at hperm
      rw [hperm.nodup_iff, mergeShip_map_pairs miu ship hship, hmiu]
      exact usage_by_month_ing_pairs_nodup _
    have hcgNodup : (cg.map (fun r : CombRow => (r.month, r.ingredient))).Nodup := by
      rw [hcgdef]
      exact ((List.filter_sublist _).map _).nodup hsortNodup
    have hne : List.Pairwise
        (fun a b : CombRow => (a.month, a.ingredient) ≠ (b.month, b.ingredient)) cg :=
      List.pairwise_map.mp hcgNodup
    have hlt : List.Pairwise (fun a b : CombRow => a.month < b.month) cg := by
      refine (hcgP.and hne).imp_of_mem ?_
      intro a b ha hb hab
      rw [hcgdef] at ha hb
      have hag : a.ingredient = g := by
        have := (List.mem_filter.mp ha).2
        simpa using this
      have hbg : b.ingredient = g := by
        have := (List.mem_filter.mp hb).2
        simpa using this
      rcases hab.1 with hstr | ⟨-, hle⟩
      · rw [combKey, combKey, hag, hbg] at hstr
        exact absurd hstr (by simp [strLT, strLTL_irrefl])
      · refine lt_of_le_of_ne hle ?_
        intro hmeq
        exact hab.2 (by rw [hmeq, hag, hbg])
    rw [hgrp]
    have hmonths : (annotateGroup ([] : List ℚ) cg).map (fun lr : LedgerRow => lr.month) =
        cg.map (fun r => r.month) := annotateGroup_map_month cg []
    have hml : List.Pairwise (fun a b : Date => a < b)
        ((annotateGroup ([] : List ℚ) cg).map (fun lr : LedgerRow => lr.month)) := by
      rw [hmonths]
      exact List.pairwise_map.mpr hlt
    exact List.pairwise_map.mp hml
  · intro k row hrow
    rw [hgrp] at hrow ⊢
    rw [annotateGroup_getElem?] at hrow
    cases hcgk : cg[k]? with
    | none => rw [hcgk] at hrow; cases hrow
    | some r =>
      rw [hcgk] at hrow
      simp only [Option.map_some'] at hrow
      injection hrow with hrow
      have hklt : k < cg.length := by
        by_contra hge
        rw [List.getElem?_eq_none (Nat.le_of_not_lt hge)] at hcgk
        cases hcgk
      rw [← hrow]
      show rollMean ([] ++ (cg.map (fun x => x.totalUsed)).take (k+1)) = _
      rw [List.nil_append, hused]
      unfold windowMean
      exact rollMean_take (cg.map (fun r => r.totalUsed)) k
        (by rw [List.length_map]; exact hklt)

/-- Three consecutive months of Flour usage 10, 20, 30. -/
def c3Sales : List SalesRow :=
  [⟨some ⟨2025, 1, 1⟩, "Noodles", 10, 0⟩, ⟨some ⟨2025, 2, 1⟩, "Noodles", 20, 0⟩,
   ⟨some ⟨2025, 3, 1⟩, "Noodles", 30, 0⟩]

def c3Ingr : List IngrRow := [⟨"Noodles", "Flour", 1⟩]

unseal Rat.add Rat.mul Rat.inv Rat.sub in
/-- C3 witness: TotalUsed [10, 20, 30] yields ForecastNextMonth
[10, 15, 20], and the window theorem applies (its month-sorting half shown
concretely). -/
theorem c3_trailing_forecast_window_witness :
    ((combinedLedger c3Sales c3Ingr []).filter
      (fun r => r.ingredient == "Flour")).map (fun r => r.forecastNextMonth) =
      [10, 15, 20] ∧
    List.Sorted (fun a b : LedgerRow => a.month < b.month)
      ((combinedLedger c3Sales c3Ingr []).filter (fun r => r.ingredient == "Flour")) :=
  ⟨by decide, (c3_trailing_forecast_window c3Sales c3Ingr [] "Flour" (by decide)).1⟩
